import Mathlib

/-!
Verification of the TruthGuard fact-checking endpoint.

The definitions below are a shallow embedding of the Deno/TypeScript source:

* `JsonVal` models untrusted JavaScript values produced by `JSON.parse`
  (JSON numbers are modelled as rationals; `null` also stands for a missing
  field, i.e. JavaScript `undefined`).
* The Response Sanitizer (`sanitizeVerdict`, `sanitizeConfidence`,
  `sanitizeExplanation`, `sanitizeRedFlags`, `sanitizeA`) embeds the
  `result = { verdict: ..., confidence: ..., ... }` block of the handler.
* The Verdict-Stage parse (`fenceExtract`, `stripFenceA`, `parseAnalysisA`)
  embeds the `try { ... JSON.parse ... } catch { analysis = default }` block;
  `JSON.parse` itself is an external primitive and is passed in as an oracle
  `String → Option Candidate`.
* The request handler (`serveA`) embeds the `serve(async (req) => ...)`
  function of the decision+SerpAPI pipeline variant; outcomes of the outbound
  `fetch` calls and of the environment lookups are fields of a `WorldA` value.
* `gatherAll` / `mergeResults` embed the evidence merge loop of
  `callGeminiWithSearch`, and `performWebSearchB` embeds `performWebSearch`
  of the tool-calling pipeline variant.
-/

/-- Model of a JavaScript value as produced by `JSON.parse`. `null` also
models `undefined` (an absent object field). -/
inductive JsonVal where
  | null : JsonVal
  | bool (b : Bool) : JsonVal
  | num (q : ℚ) : JsonVal
  | str (s : String) : JsonVal
  | arr (elems : List JsonVal) : JsonVal
  | obj (fields : List (String × JsonVal)) : JsonVal

/-- JavaScript truthiness test, negated: `!v` on a `JsonVal`. -/
def jsFalsy : JsonVal → Bool
  | .null => true
  | .bool b => !b
  | .num q => q == 0
  | .str s => s == ""
  | .arr _ => false
  | .obj _ => false

/-- `typeof v === "string"`. -/
def JsonVal.isStr : JsonVal → Bool
  | .str _ => true
  | _ => false

/-- `typeof v === "number"`. -/
def JsonVal.isNum : JsonVal → Bool
  | .num _ => true
  | _ => false

/-- The string payload of a `JsonVal`; only ever used under an `isStr` guard
(the TypeScript short-circuits `typeof text !== "string" || text.trim()...`). -/
def JsonVal.asStr : JsonVal → String
  | .str s => s
  | _ => ""

/-- JavaScript `a || d` for an optional string `a` (`undefined` and `""` are
both falsy). -/
def jsOrStr (v : Option String) (d : String) : String :=
  match v with
  | some s => if s = "" then d else s
  | none => d

/-- JavaScript `String.prototype.trim`, modelled over the character list
(whitespace = space, tab, CR, LF). -/
def jsTrim (s : String) : String :=
  String.mk (((s.data.dropWhile Char.isWhitespace).reverse.dropWhile
    Char.isWhitespace).reverse)

/-- Boolean test that `needle` occurs at the start of `hay`
(JavaScript `hay.startsWith(needle)` over character lists). -/
def listStarts : List Char → List Char → Bool
  | [], _ => true
  | _ :: _, [] => false
  | a :: as, b :: bs => a == b && listStarts as bs

/-- Boolean substring test (JavaScript `hay.includes(needle)` over character
lists). -/
def listHas (needle : List Char) : List Char → Bool
  | [] => needle.isEmpty
  | c :: rest => listStarts needle (c :: rest) || listHas needle rest

/-- JavaScript `hay.includes(needle)` on strings. -/
def includesStr (hay needle : String) : Bool :=
  listHas needle.data hay.data

/-! ## Response Sanitizer (the `result = { ... }` block of the handler) -/

/-- The untrusted parsed model output: the four fields the handler reads off
`analysis` after `JSON.parse`. An absent field is `JsonVal.null`. -/
structure Candidate where
  verdict : JsonVal
  confidence : JsonVal
  explanation : JsonVal
  redFlags : JsonVal

/-- `["real", "fake", "uncertain"].includes(analysis.verdict) ?
analysis.verdict : "uncertain"` — membership in the array literal is the
disjunction of the three strict equality tests. -/
def sanitizeVerdict : JsonVal → String
  | .str s => if s == "real" || s == "fake" || s == "uncertain" then s else "uncertain"
  | _ => "uncertain"

/-- `typeof analysis.confidence === "number" ?
Math.min(100, Math.max(0, Math.round(analysis.confidence))) : 50`.
`Math.round` rounds half toward positive infinity, which is Mathlib `round`. -/
def sanitizeConfidence : JsonVal → ℤ
  | .num q => min 100 (max 0 (round q))
  | _ => 50

/-- `typeof analysis.explanation === "string" ? analysis.explanation :
"Analysis complete."`. -/
def sanitizeExplanation : JsonVal → String
  | .str s => s
  | _ => "Analysis complete."

/-- `Array.isArray(analysis.redFlags) ?
analysis.redFlags.filter(f => typeof f === "string") : []`. -/
def sanitizeRedFlags : JsonVal → List String
  | .arr xs => xs.filterMap fun x => match x with
      | .str s => some s
      | _ => none
  | _ => []

/-- A `{title, link}` source record as returned by the SerpAPI pipeline. -/
structure SourceTL where
  title : String
  link : String
deriving DecidableEq

/-- The sanitized response object (`result` in the handler). -/
structure ResultA where
  verdict : String
  confidence : ℤ
  explanation : String
  redFlags : List String
  sourceMode : String
  sources : List SourceTL
deriving DecidableEq

/-- The whole sanitize block: builds `result` from the untrusted candidate,
attaching `sourceMode` and `sources` untouched. -/
def sanitizeA (a : Candidate) (sourceMode : String) (sources : List SourceTL) : ResultA :=
  { verdict := sanitizeVerdict a.verdict
    confidence := sanitizeConfidence a.confidence
    explanation := sanitizeExplanation a.explanation
    redFlags := sanitizeRedFlags a.redFlags
    sourceMode := sourceMode
    sources := sources }

/-! ## Claim 1 and Claim 2 -/

/-- C1: for every candidate, the sanitized `confidence` is an integer in
`[0,100]`: a numeric candidate is rounded to the nearest integer and clamped
to `[0,100]`, a non-numeric one becomes `50`, and clamping an
already-clamped value changes nothing. -/
theorem claim1_confidence_clamped (a : Candidate) (mode : String) (srcs : List SourceTL) :
    (sanitizeA a mode srcs).confidence = sanitizeConfidence a.confidence ∧
    (0 ≤ sanitizeConfidence a.confidence ∧ sanitizeConfidence a.confidence ≤ 100) ∧
    (∀ q : ℚ, a.confidence = JsonVal.num q →
      sanitizeConfidence a.confidence = min 100 (max 0 (round q))) ∧
    (a.confidence.isNum = false → sanitizeConfidence a.confidence = 50) ∧
    sanitizeConfidence (JsonVal.num ((sanitizeConfidence a.confidence : ℤ) : ℚ)) =
      sanitizeConfidence a.confidence := by
  refine ⟨rfl, ?_, ?_, ?_, ?_⟩
  · cases h : a.confidence <;> simp only [sanitizeConfidence] <;> omega
  · intro q hq
    rw [hq]
    rfl
  · intro h
    cases hc : a.confidence <;> simp_all [sanitizeConfidence, JsonVal.isNum]
  · cases h : a.confidence <;>
      simp only [sanitizeConfidence, round_intCast] <;> omega

/-- Witness for C1 at concrete inputs: a numeric candidate and a non-numeric
one. -/
theorem claim1_witness :
    sanitizeConfidence (JsonVal.num 7) = min 100 (max 0 (round (7 : ℚ))) ∧
    sanitizeConfidence (JsonVal.str "x") = 50 := by
  constructor
  · exact (claim1_confidence_clamped ⟨.null, .num 7, .null, .null⟩ "static" []).2.2.1 7 rfl
  · exact (claim1_confidence_clamped ⟨.null, .str "x", .null, .null⟩ "static" []).2.2.2.1 rfl

/-- C2: the sanitized `verdict` equals the candidate verdict exactly when
that value is one of the strings `real`, `fake`, `uncertain`; every other
candidate value (wrong string, number, absent field) sanitizes to
`uncertain`. -/
theorem claim2_verdict_whitelist (a : Candidate) (mode : String) (srcs : List SourceTL) :
    (sanitizeA a mode srcs).verdict = sanitizeVerdict a.verdict ∧
    (sanitizeVerdict a.verdict = "real" ∨ sanitizeVerdict a.verdict = "fake" ∨
      sanitizeVerdict a.verdict = "uncertain") ∧
    (∀ s : String, a.verdict = JsonVal.str s →
      (s = "real" ∨ s = "fake" ∨ s = "uncertain") → sanitizeVerdict a.verdict = s) ∧
    ((a.verdict ≠ JsonVal.str "real" ∧ a.verdict ≠ JsonVal.str "fake" ∧
      a.verdict ≠ JsonVal.str "uncertain") → sanitizeVerdict a.verdict = "uncertain") := by
  refine ⟨rfl, ?_, ?_, ?_⟩
  · cases h : a.verdict with
    | str s =>
      simp only [sanitizeVerdict]
      split
      · next hc =>
        rcases Bool.or_eq_true_iff.mp hc with hc | hc
        · rcases Bool.or_eq_true_iff.mp hc with hc | hc
          · exact Or.inl (by simpa using hc)
          · exact Or.inr (Or.inl (by simpa using hc))
        · exact Or.inr (Or.inr (by simpa using hc))
      · exact Or.inr (Or.inr rfl)
    | null => exact Or.inr (Or.inr rfl)
    | bool b => exact Or.inr (Or.inr rfl)
    | num q => exact Or.inr (Or.inr rfl)
    | arr xs => exact Or.inr (Or.inr rfl)
    | obj fs => exact Or.inr (Or.inr rfl)
  · intro s hs hmem
    rw [hs]
    rcases hmem with h | h | h <;> subst h <;> rfl
  · intro ⟨h1, h2, h3⟩
    cases h : a.verdict with
    | str s =>
      rw [h] at h1 h2 h3
      simp only [sanitizeVerdict]
      split
      · next hc =>
        exfalso
        rcases Bool.or_eq_true_iff.mp hc with hc | hc
        · rcases Bool.or_eq_true_iff.mp hc with hc | hc
          · exact h1 (by simpa using hc)
          · exact h2 (by simpa using hc)
        · exact h3 (by simpa using hc)
      · rfl
    | null => rfl
    | bool b => rfl
    | num q => rfl
    | arr xs => rfl
    | obj fs => rfl

/-- Witness for C2 at concrete inputs: an allowed string, a wrong string and
a numeric candidate. -/
theorem claim2_witness :
    sanitizeVerdict (JsonVal.str "fake") = "fake" ∧
    sanitizeVerdict (JsonVal.str "maybe") = "uncertain" ∧
    sanitizeVerdict (JsonVal.num 42) = "uncertain" := by
  refine ⟨?_, ?_, ?_⟩
  · exact (claim2_verdict_whitelist ⟨.str "fake", .null, .null, .null⟩ "static" []).2.2.1
      "fake" rfl (Or.inr (Or.inl rfl))
  · exact (claim2_verdict_whitelist ⟨.str "maybe", .null, .null, .null⟩ "static" []).2.2.2
      (by refine ⟨?_, ?_, ?_⟩ <;> intro h <;> simp_all)
  · exact (claim2_verdict_whitelist ⟨.num 42, .null, .null, .null⟩ "static" []).2.2.2
      (by refine ⟨?_, ?_, ?_⟩ <;> intro h <;> simp_all)

/-! ## Decision Stage -/

/-- `decisionRes.content.trim().includes("LIVE_SEARCH_REQUIRED")` — the
classification rule of STEP 1 of the handler. -/
def needsLiveSearchA (content : String) : Bool :=
  includesStr (jsTrim content) "LIVE_SEARCH_REQUIRED"

/-- `listStarts` decides the prefix relation. -/
lemma listStarts_iff (n l : List Char) : listStarts n l = true ↔ n <+: l := by
  induction n generalizing l with
  | nil => simp [listStarts]
  | cons a as ih =>
    cases l with
    | nil => simp [listStarts]
    | cons b bs =>
      simp [listStarts, Bool.and_eq_true, beq_iff_eq, ih, List.cons_prefix_cons,
        and_comm]

/-- `listHas` decides the substring (infix) relation. -/
lemma listHas_iff (n l : List Char) : listHas n l = true ↔ n <:+: l := by
  induction l with
  | nil => simp [listHas, List.isEmpty_iff]
  | cons c rest ih =>
    simp only [listHas, Bool.or_eq_true, listStarts_iff, ih]
    exact ( List.infix_cons_iff).symm

/-- Dropping a leading run of characters that cannot occur in a nonempty
token does not change whether the token occurs as a substring. -/
lemma token_dropWhile_iff (p : Char → Bool) (t : List Char) (ht : t ≠ [])
    (hp : ∀ c ∈ t, p c = false) (l : List Char) :
    t <:+: l.dropWhile p ↔ t <:+: l := by
  induction l with
  | nil => simp [List.dropWhile]
  | cons c rest ih =>
    cases hpc : p c with
    | false => rw [List.dropWhile_cons, hpc]; simp
    | true =>
      rw [List.dropWhile_cons, hpc]
      simp only [if_true]
      refine ih.trans ⟨ List.infix_cons, ?_⟩
      intro h
      rcases ( List.infix_cons_iff).mp h with h | h
      · cases t with
        | nil => exact absurd rfl ht
        | cons t0 ts =>
          rcases ( List.cons_prefix_cons).mp h with ⟨rfl, -⟩
          have := hp t0 (List.mem_cons_self t0 ts)
          rw [this] at hpc
          cases hpc
      · exact h

/-- Infix in a reversed list is the reversed token being an infix. -/
lemma token_reverse_iff (a b : List Char) : a <:+: b.reverse ↔ a.reverse <:+: b := by
  conv_lhs => rw [← List.reverse_reverse a]
  exact List.reverse_infix

/-- A nonempty token with no whitespace characters occurs in `jsTrim s`
exactly when it occurs in `s`. -/
lemma token_jsTrim_iff (tok s : String) (ht : tok.data ≠ [])
    (hp : ∀ c ∈ tok.data, Char.isWhitespace c = false) :
    tok.data <:+: (jsTrim s).data ↔ tok.data <:+: s.data := by
  show tok.data <:+:
      ((s.data.dropWhile Char.isWhitespace).reverse.dropWhile
        Char.isWhitespace).reverse ↔ _
  rw [token_reverse_iff]
  rw [token_dropWhile_iff Char.isWhitespace tok.data.reverse
    (by simpa using ht) (by simpa using hp)]
  rw [List.reverse_infix]
  exact token_dropWhile_iff Char.isWhitespace tok.data ht hp s.data

/-- C5: the Decision Stage classifies a response as requiring live evidence
exactly when the response text contains the sentinel
`LIVE_SEARCH_REQUIRED`; any other content yields the static path. -/
theorem claim5_sentinel_decision (content : String) :
    needsLiveSearchA content = true ↔
      "LIVE_SEARCH_REQUIRED".data <:+: content.data := by
  unfold needsLiveSearchA includesStr
  rw [listHas_iff]
  exact token_jsTrim_iff "LIVE_SEARCH_REQUIRED" content (by decide) (by decide)

/-! ## Verdict Stage parsing (the `try { JSON.parse } catch` block) -/

/-- The backtick character, the code-fence marker. -/
def backtickChar : Char := Char.ofNat 96

/-- Three backticks: the code-fence delimiter of the extraction pattern. -/
def fenceMarker : List Char := [backtickChar, backtickChar, backtickChar]

/-- Lazy capture of the extraction pattern: the characters up to the earliest
closing fence, or `none` when no closing fence follows. -/
def captureTo : List Char → Option (List Char)
  | [] => none
  | c :: rest =>
    if (c :: rest).take 3 = fenceMarker then some []
    else
      match captureTo rest with
      | some cap => some (c :: cap)
      | none => none

/-- The fenced-payload extraction of
`content.match(/三backtick(?:json)?\s*([\s\S]*?)三backtick/)`: scan for an
opening fence, optionally consume a `json` tag, skip leading whitespace, and
capture lazily up to the closing fence; on failure resume the scan one
character further. -/
def fenceExtract : List Char → Option (List Char)
  | [] => none
  | c :: rest =>
    if (c :: rest).take 3 = fenceMarker then
      let afterOpen := (c :: rest).drop 3
      let afterJson :=
        if afterOpen.take 4 = ['j', 's', 'o', 'n'] then afterOpen.drop 4 else afterOpen
      match captureTo (afterJson.dropWhile Char.isWhitespace) with
      | some cap => some cap
      | none => fenceExtract rest
    else fenceExtract rest

/-- `jsonMatch[1]` together with the `|| [null, content]` fallback: the
captured fenced payload, or the whole content when the pattern has no match. -/
def stripFenceA (content : String) : String :=
  match fenceExtract content.data with
  | some cap => String.mk cap
  | none => content

/-- The deterministic default candidate substituted by the `catch` block when
`JSON.parse` fails at the Verdict Stage. -/
def defaultCandidateA : Candidate :=
  { verdict := .str "uncertain"
    confidence := .num 50
    explanation := .str "Unable to fully analyze this content. Please try again."
    redFlags := .arr [] }

/-- The Verdict-Stage parse: strip optional fencing, trim, and run
`JSON.parse` through the oracle `jp`; on failure substitute the default
candidate instead of propagating the exception. -/
def parseAnalysisA (jp : String → Option Candidate) (content : String) : Candidate :=
  match jp (jsTrim (stripFenceA content)) with
  | some a => a
  | none => defaultCandidateA

/-- A `JSON.parse` oracle that fails on every input, for concrete evaluation
of the parse-failure path. -/
def jpFail : String → Option Candidate := fun _ => none

/-! ## Claim 4 -/

/-- C4 as stated is false: on parse failure the substituted default
candidate's explanation is the literal
`"Unable to fully analyze this content. Please try again."`, not the
claimed `"unable to analyze"`. -/
theorem claim4_counterexample :
    (parseAnalysisA jpFail "not json").explanation ≠ JsonVal.str "unable to analyze" := by
  have h : parseAnalysisA jpFail "not json" = defaultCandidateA := rfl
  rw [h]
  intro heq
  exact absurd (JsonVal.str.inj heq) (by decide)

/-- C4 (amended): when the content, after stripping optional fencing and
trimming, fails to parse as JSON, the Verdict Stage does not fail; it
substitutes the deterministic default candidate `verdict="uncertain"`,
`confidence=50`,
`explanation="Unable to fully analyze this content. Please try again."`,
`redFlags=[]` — which the sanitizer maps to verdict `uncertain`, confidence
`50` and empty red flags. -/
theorem claim4_default_on_parse_failure (jp : String → Option Candidate)
    (content : String) (h : jp (jsTrim (stripFenceA content)) = none) :
    parseAnalysisA jp content = defaultCandidateA ∧
    defaultCandidateA.verdict = JsonVal.str "uncertain" ∧
    defaultCandidateA.confidence = JsonVal.num 50 ∧
    defaultCandidateA.explanation =
      JsonVal.str "Unable to fully analyze this content. Please try again." ∧
    defaultCandidateA.redFlags = JsonVal.arr [] ∧
    sanitizeVerdict defaultCandidateA.verdict = "uncertain" ∧
    sanitizeConfidence defaultCandidateA.confidence = 50 ∧
    sanitizeRedFlags defaultCandidateA.redFlags = [] := by
  refine ⟨?_, rfl, rfl, rfl, rfl, by decide, ?_, rfl⟩
  · unfold parseAnalysisA
    rw [h]
  · show min 100 (max 0 (round (50 : ℚ))) = 50
    rw [show ((50 : ℚ)) = ((50 : ℤ) : ℚ) by norm_num, round_intCast]
    decide

/-- Witness for the amended C4 at a concrete failing content. -/
theorem claim4_witness :
    parseAnalysisA jpFail "garbage" = defaultCandidateA ∧
    sanitizeVerdict defaultCandidateA.verdict = "uncertain" ∧
    sanitizeConfidence defaultCandidateA.confidence = 50 ∧
    sanitizeRedFlags defaultCandidateA.redFlags = [] := by
  have h := claim4_default_on_parse_failure jpFail "garbage" rfl
  exact ⟨h.1, h.2.2.2.2.2.1, h.2.2.2.2.2.2.1, h.2.2.2.2.2.2.2⟩

/-! ## Request Handler (decision + SerpAPI pipeline variant) -/

/-- The permissive CORS headers attached to every response. -/
def corsHeaders : List (String × String) :=
  [("Access-Control-Allow-Origin", "*"),
   ("Access-Control-Allow-Headers", "authorization, x-client-info, apikey, content-type")]

/-- The `Content-Type: application/json` header added alongside the CORS
headers on every JSON response. -/
def ctJson : String × String := ("Content-Type", "application/json")

/-- A SerpAPI `organic_results` record; each field may be absent. -/
structure OrganicResult where
  title : Option String
  link : Option String
  snippet : Option String

/-- The value returned by `runLiveSearch`. -/
structure SearchOutA where
  snippets : String
  sources : List SourceTL
  error : Option String

/-- One rendered snippet block of `runLiveSearch`:
`i+1. title\nsnippet\nlink`. -/
def organicLine : Nat × OrganicResult → String
  | (i, r) =>
    toString (i + 1) ++ ". " ++ jsOrStr r.title "Untitled" ++ "\n" ++
      jsOrStr r.snippet "" ++ "\n" ++ jsOrStr r.link ""

/-- The untrusted candidate as the handler reads it off the parsed body;
outcomes of the external calls of the handler. `serpFetch query = none`
models a non-OK SerpAPI response, `decision` / `analysis` are the outcomes
of the two `callGemini` calls, `jsonParse` models `JSON.parse`, and
`bodyErrorMsg` is the message of the exception thrown by `req.json()` when
the request body is unparsable. -/
structure WorldA where
  lovableKey : Option String
  serpapiKey : Option String
  serpFetch : String → Option (List OrganicResult)
  decision : Except String String
  analysis : Except String String
  jsonParse : String → Option Candidate
  bodyErrorMsg : String

/-- `runLiveSearch(query)`: missing `SERPAPI_KEY` and a failed fetch yield an
error record; otherwise the top five organic results are rendered. -/
def runLiveSearchA (w : WorldA) (query : String) : SearchOutA :=
  match w.serpapiKey with
  | none => ⟨"", [], some "Live search is not configured (missing SERPAPI_KEY)."⟩
  | some _ =>
    match w.serpFetch query with
    | none => ⟨"", [], some "Live search failed."⟩
    | some organic =>
      let top := organic.take 5
      { snippets := String.intercalate "\n\n" (top.enum.map organicLine)
        sources := top.map fun r => ⟨jsOrStr r.title "", jsOrStr r.link ""⟩
        error := none }

/-- The evidence state after STEP 2 of the handler: snippets, sources and
`sourceMode`. -/
structure EvidenceA where
  snippets : String
  sources : List SourceTL
  mode : String

/-- STEP 2 of the handler: when live search is needed, run it; on a search
error fall back to static mode with empty evidence. -/
def evidenceA (w : WorldA) (userInput : String) (needsLive : Bool) : EvidenceA :=
  if needsLive then
    match (runLiveSearchA w userInput).error with
    | some _ => ⟨"", [], "static"⟩
    | none =>
      ⟨(runLiveSearchA w userInput).snippets, (runLiveSearchA w userInput).sources,
        "live-web"⟩
  else ⟨"", [], "static"⟩

/-- The body of an HTTP response built by the handler. -/
inductive BodyA where
  | empty : BodyA
  | err (msg : String) : BodyA
  | ok (r : ResultA) : BodyA

/-- An HTTP response: status, headers, body. `new Response(body, init)`
defaults the status to 200 when `init` carries none. -/
structure HttpResponse where
  status : Nat
  headers : List (String × String)
  body : BodyA

/-- A 500 response with an error body, as built by the handler's error
branches. -/
def err500 (msg : String) : HttpResponse :=
  ⟨500, corsHeaders ++ [ctJson], .err msg⟩

/-- An incoming request: its method, and the `text` field of the parsed JSON
body (`none` models a body on which `req.json()` throws; an absent field is
`JsonVal.null`). -/
structure RequestA where
  method : String
  textField : Option JsonVal

/-- The `serve(async (req) => ...)` handler of the decision + SerpAPI
pipeline variant, one branch per return statement of the source. -/
def serveA (w : WorldA) (req : RequestA) : HttpResponse :=
  if req.method = "OPTIONS" then
    { status := 200, headers := corsHeaders, body := .empty }
  else
    match req.textField with
    | none => err500 w.bodyErrorMsg
    | some text =>
      if jsFalsy text || !text.isStr || ((jsTrim text.asStr).length == 0) then
        { status := 400, headers := corsHeaders ++ [ctJson],
          body := .err "Please provide text to analyze" }
      else
        match w.lovableKey with
        | none => err500 "AI service is not configured"
        | some _ =>
          match w.decision with
          | .error e => err500 e
          | .ok dContent =>
            let ev := evidenceA w (jsTrim text.asStr) (needsLiveSearchA dContent)
            match w.analysis with
            | .error e => err500 e
            | .ok content =>
              { status := 200, headers := corsHeaders ++ [ctJson],
                body := .ok (sanitizeA (parseAnalysisA w.jsonParse content)
                  ev.mode ev.sources) }

/-- A concrete world for closed evaluations. -/
def world0 : WorldA :=
  { lovableKey := none
    serpapiKey := none
    serpFetch := fun _ => none
    decision := .error ""
    analysis := .error ""
    jsonParse := fun _ => none
    bodyErrorMsg := "" }

/-- A concrete OPTIONS request. -/
def reqOptions0 : RequestA := ⟨"OPTIONS", none⟩

/-! ## Claim 3 -/

/-- C3 as stated is false: the OPTIONS branch returns
`new Response(null, { headers: corsHeaders })`, whose default status is 200,
not the claimed 204. -/
theorem claim3_counterexample : (serveA world0 reqOptions0).status ≠ 204 := by
  have h : (serveA world0 reqOptions0).status = 200 := rfl
  omega

/-- C3 (amended): every OPTIONS request is answered with HTTP status 200
(the `Response` default) and an empty body, carrying the permissive CORS
headers: allow-origin `*` and allow-headers covering `authorization`,
`content-type` and `apikey`. -/
theorem claim3_preflight (w : WorldA) (req : RequestA) (h : req.method = "OPTIONS") :
    serveA w req = { status := 200, headers := corsHeaders, body := .empty } ∧
    ("Access-Control-Allow-Origin", "*") ∈ corsHeaders ∧
    ∃ v, ("Access-Control-Allow-Headers", v) ∈ corsHeaders ∧
      includesStr v "authorization" = true ∧
      includesStr v "content-type" = true ∧
      includesStr v "apikey" = true := by
  refine ⟨?_, by decide, ?_⟩
  · unfold serveA
    rw [if_pos h]
  · exact ⟨"authorization, x-client-info, apikey, content-type",
      by decide, by decide, by decide, by decide⟩

/-- Witness for the amended C3 at a concrete OPTIONS request. -/
theorem claim3_witness :
    serveA world0 reqOptions0 = { status := 200, headers := corsHeaders, body := .empty } :=
  (claim3_preflight world0 reqOptions0 rfl).1

/-! ## Claim 7 -/

/-- A string has length zero exactly when it is empty. -/
lemma string_length_zero_iff (s : String) : s.length = 0 ↔ s = "" := by
  cases s with
  | mk data =>
    constructor
    · intro h
      have hd : data = [] := List.length_eq_zero.mp h
      rw [hd]
    · intro h
      rw [h]
      rfl

/-- C7: whenever the `text` field of the body is missing, non-string, or
blank after trimming, the handler answers 400 with exactly
`{ error: "Please provide text to analyze" }`; the response is the same for
every world, so no pipeline stage can influence (or be invoked by) it. -/
theorem claim7_validation (w : WorldA) (m : String) (t : JsonVal)
    (hm : m ≠ "OPTIONS")
    (ht : t = JsonVal.null ∨ t.isStr = false ∨ ∃ s, t = JsonVal.str s ∧ jsTrim s = "") :
    serveA w ⟨m, some t⟩ =
      { status := 400, headers := corsHeaders ++ [ctJson],
        body := .err "Please provide text to analyze" } := by
  have hcond : (jsFalsy t || !t.isStr || ((jsTrim t.asStr).length == 0)) = true := by
    rcases ht with rfl | hstr | ⟨s, rfl, htrim⟩
    · rfl
    · simp [hstr]
    · simp only [JsonVal.asStr, htrim]
      simp [jsFalsy]
  simp only [serveA]
  rw [if_neg hm]
  simp only [hcond]
  rfl

/-- Witness for C7: a request whose body text field is absent. -/
theorem claim7_witness :
    serveA world0 ⟨"POST", some JsonVal.null⟩ =
      { status := 400, headers := corsHeaders ++ [ctJson],
        body := .err "Please provide text to analyze" } :=
  claim7_validation world0 "POST" JsonVal.null (by decide) (Or.inl rfl)

/-! ## Claim 9 -/

/-- C9: every response the handler emits — preflight, success, validation
failure and every error path — carries the CORS header
`Access-Control-Allow-Origin: *`. -/
theorem claim9_cors_on_every_response (w : WorldA) (req : RequestA) :
    ("Access-Control-Allow-Origin", "*") ∈ (serveA w req).headers := by
  unfold serveA err500
  repeat' split
  all_goals simp [corsHeaders, ctJson]

/-! ## Claim 8 -/

/-- C8: when the claim is classified as requiring live evidence but the
search credential is absent or the provider is unavailable (every
`runLiveSearch` outcome is an error), the request still succeeds: the
handler answers 200 with a sanitized verdict whose `sourceMode` is
`"static"` and whose `sources` list is empty, rather than an error
response. -/
theorem claim8_static_degradation (w : WorldA) (m s k dContent aContent : String)
    (hm : m ≠ "OPTIONS") (hs : jsTrim s ≠ "")
    (hkey : w.lovableKey = some k)
    (hdec : w.decision = Except.ok dContent)
    (hlive : needsLiveSearchA dContent = true)
    (hsearch : ∀ q : String, ((runLiveSearchA w q).error).isSome = true)
    (han : w.analysis = Except.ok aContent) :
    serveA w ⟨m, some (JsonVal.str s)⟩ =
      { status := 200, headers := corsHeaders ++ [ctJson],
        body := .ok (sanitizeA (parseAnalysisA w.jsonParse aContent) "static" []) } ∧
    (sanitizeA (parseAnalysisA w.jsonParse aContent) "static" []).sourceMode = "static" ∧
    (sanitizeA (parseAnalysisA w.jsonParse aContent) "static" []).sources = [] := by
  have hs' : s ≠ "" := by
    intro h
    rw [h] at hs
    exact hs rfl
  have hlen : ((jsTrim s).length == 0) = false := by
    have hne : (jsTrim s).length ≠ 0 := fun h =>
      hs ((string_length_zero_iff (jsTrim s)).mp h)
    simpa using hne
  have hcond : (jsFalsy (JsonVal.str s) || !(JsonVal.str s).isStr ||
      ((jsTrim s).length == 0)) = false := by
    simp only [jsFalsy, JsonVal.isStr, hlen]
    simp [hs']
  obtain ⟨e, he⟩ := Option.isSome_iff_exists.mp (hsearch (jsTrim s))
  have hev : evidenceA w (jsTrim s) (needsLiveSearchA dContent) = ⟨"", [], "static"⟩ := by
    rw [hlive]
    unfold evidenceA
    rw [if_pos rfl, he]
  refine ⟨?_, rfl, rfl⟩
  simp only [serveA]
  rw [if_neg hm]
  simp only [JsonVal.asStr, hkey, hdec, han, hev]
  simp [hcond]

/-- A concrete world for the C8 witness: live-search decision, no SerpAPI
credential, a successful analysis call. -/
def world8 : WorldA :=
  { lovableKey := some "k"
    serpapiKey := none
    serpFetch := fun _ => none
    decision := .ok "LIVE_SEARCH_REQUIRED"
    analysis := .ok "resp"
    jsonParse := fun _ => none
    bodyErrorMsg := "" }

/-- Witness for C8: a live-classified claim with the search credential
absent still yields a 200 static verdict. -/
theorem claim8_witness :
    serveA world8 ⟨"POST", some (JsonVal.str "hello")⟩ =
      { status := 200, headers := corsHeaders ++ [ctJson],
        body := .ok (sanitizeA (parseAnalysisA world8.jsonParse "resp") "static" []) } := by
  exact (claim8_static_degradation world8 "POST" "hello" "k" "LIVE_SEARCH_REQUIRED" "resp"
    (by decide) (by decide) rfl rfl (by decide) (fun q => rfl) rfl).1

/-! ## Evidence Gathering Stage (tool-calling pipeline variant) -/

/-- A `{title, url, snippet}` evidence record (`Source` in the source). -/
structure SourceB where
  title : String
  url : String
  snippet : String
deriving DecidableEq

/-- The snippet line pushed alongside each newly merged source:
`- title: snippet (url)`. -/
def renderLine (r : SourceB) : String :=
  "- " ++ r.title ++ ": " ++ r.snippet ++ " (" ++ r.url ++ ")"

/-- The body of the inner merge loop: skip a record whose URL is already in
`allSources`, else push it and its snippet line. -/
def gatherStep (st : List SourceB × List String) (r : SourceB) :
    List SourceB × List String :=
  if st.1.any fun s => s.url == r.url then st
  else (st.1 ++ [r], st.2 ++ [renderLine r])

/-- The double merge loop of `callGeminiWithSearch`: fold the merge step
over each query's result list in order. -/
def gatherAll (resultLists : List (List SourceB)) : List SourceB × List String :=
  resultLists.foldl (fun st results => results.foldl gatherStep st) ([], [])

/-- `allSources` after the merge loop. -/
def mergeResults (resultLists : List (List SourceB)) : List SourceB :=
  (gatherAll resultLists).1

/-- `topSources = allSources.slice(0, 8)`. -/
def topSources (resultLists : List (List SourceB)) : List SourceB :=
  (mergeResults resultLists).take 8

/-- The lines of `evidenceText`: `allSnippets.slice(0, 8)`. -/
def evidenceLines (resultLists : List (List SourceB)) : List String :=
  (gatherAll resultLists).2.take 8

/-- Specification helper: keep each record whose URL is neither in `seen`
nor on an earlier kept record. -/
def addNew (seen : List String) : List SourceB → List SourceB
  | [] => []
  | r :: rest =>
    if r.url ∈ seen then addNew seen rest
    else r :: addNew (r.url :: seen) rest

/-- `addNew` only depends on the membership of `seen`. -/
lemma addNew_congr (l : List SourceB) :
    ∀ s1 s2 : List String, (∀ x, x ∈ s1 ↔ x ∈ s2) → addNew s1 l = addNew s2 l := by
  induction l with
  | nil => intro s1 s2 h; rfl
  | cons r rest ih =>
    intro s1 s2 h
    simp only [addNew]
    by_cases hr : r.url ∈ s1
    · rw [if_pos hr, if_pos ((h _).mp hr)]
      exact ih s1 s2 h
    · rw [if_neg hr, if_neg (fun hx => hr ((h _).mpr hx))]
      congr 1
      refine ih _ _ fun x => ?_
      simp only [List.mem_cons, h x]

/-- The first components of the merge fold are the records with new URLs,
appended to the accumulator. -/
lemma foldl_gatherStep_fst (l : List SourceB) :
    ∀ st : List SourceB × List String,
      (l.foldl gatherStep st).1 = st.1 ++ addNew (st.1.map fun s => s.url) l := by
  induction l with
  | nil => intro st; simp [addNew]
  | cons r rest ih =>
    intro st
    rw [List.foldl_cons]
    by_cases hdup : (st.1.any fun s => s.url == r.url) = true
    · have hmem : r.url ∈ st.1.map fun s => s.url := by
        rcases List.any_eq_true.mp hdup with ⟨x, hx, hxe⟩
        exact List.mem_map.mpr ⟨x, hx, beq_iff_eq.mp hxe⟩
      rw [show gatherStep st r = st from if_pos hdup]
      rw [ih st]
      simp only [addNew, if_pos hmem]
    · have hmem : r.url ∉ st.1.map fun s => s.url := by
        intro hin
        rcases List.mem_map.mp hin with ⟨x, hx, hxe⟩
        exact hdup (List.any_eq_true.mpr ⟨x, hx, beq_iff_eq.mpr hxe⟩)
      rw [show gatherStep st r = (st.1 ++ [r], st.2 ++ [renderLine r]) from if_neg hdup]
      rw [ih (st.1 ++ [r], st.2 ++ [renderLine r])]
      simp only [addNew, if_neg hmem, List.map_append, List.map_cons, List.map_nil]
      rw [List.append_assoc]
      have hcg : addNew ((st.1.map fun s => s.url) ++ [r.url]) rest =
          addNew (r.url :: st.1.map fun s => s.url) rest := by
        refine addNew_congr rest _ _ fun x => ?_
        simp only [List.mem_append, List.mem_cons, List.not_mem_nil, or_false]
        exact or_comm
      rw [hcg]
      rfl

/-- The snippet list stays in lockstep with the source list. -/
lemma foldl_gatherStep_snd (l : List SourceB) :
    ∀ st : List SourceB × List String, st.2 = st.1.map renderLine →
      (l.foldl gatherStep st).2 = (l.foldl gatherStep st).1.map renderLine := by
  induction l with
  | nil => intro st h; exact h
  | cons r rest ih =>
    intro st h
    rw [List.foldl_cons]
    by_cases hdup : (st.1.any fun s => s.url == r.url) = true
    · rw [show gatherStep st r = st from if_pos hdup]
      exact ih st h
    · rw [show gatherStep st r = (st.1 ++ [r], st.2 ++ [renderLine r]) from if_neg hdup]
      refine ih _ ?_
      simp [h]

/-- The URLs kept by `addNew` are pairwise distinct and avoid `seen`. -/
lemma addNew_nodup (l : List SourceB) :
    ∀ seen : List String,
      ((addNew seen l).map fun s => s.url).Nodup ∧
      ∀ u ∈ (addNew seen l).map fun s => s.url, u ∉ seen := by
  induction l with
  | nil => intro seen; simp [addNew]
  | cons r rest ih =>
    intro seen
    by_cases hin : r.url ∈ seen
    · simpa only [addNew, if_pos hin] using ih seen
    · obtain ⟨ihN, ihD⟩ := ih (r.url :: seen)
      simp only [addNew, if_neg hin, List.map_cons]
      refine ⟨List.nodup_cons.mpr ⟨?_, ihN⟩, ?_⟩
      · intro hmem
        exact ihD _ hmem (List.mem_cons_self _ _)
      · intro u hu
        rcases List.mem_cons.mp hu with rfl | hu
        · exact hin
        · intro huseen
          exact ihD u hu (List.mem_cons_of_mem _ huseen)

/-- `addNew` keeps a subsequence: first-seen order is preserved. -/
lemma addNew_sublist (l : List SourceB) :
    ∀ seen : List String, List.Sublist (addNew seen l) l := by
  induction l with
  | nil => intro seen; exact List.Sublist.refl _
  | cons r rest ih =>
    intro seen
    by_cases hin : r.url ∈ seen
    · simpa only [addNew, if_pos hin] using List.Sublist.cons r (ih seen)
    · simpa only [addNew, if_neg hin] using List.Sublist.cons₂ r (ih (r.url :: seen))

/-- For a URL outside `seen`, the first record `addNew` keeps for this URL
is the first record of the input stream with this URL. -/
lemma addNew_find (l : List SourceB) :
    ∀ seen : List String, ∀ u : String, u ∉ seen →
      (addNew seen l).find? (fun s => s.url == u) = l.find? fun s => s.url == u := by
  induction l with
  | nil => intro seen u hu; rfl
  | cons r rest ih =>
    intro seen u hu
    by_cases hru : r.url = u
    · have hin : r.url ∉ seen := hru ▸ hu
      simp only [addNew, if_neg hin]
      rw [List.find?_cons_of_pos, List.find?_cons_of_pos] <;> simp [hru]
    · by_cases hin : r.url ∈ seen
      · simp only [addNew, if_pos hin]
        rw [ih seen u hu, List.find?_cons_of_neg]
        simp [hru]
      · simp only [addNew, if_neg hin]
        rw [List.find?_cons_of_neg, List.find?_cons_of_neg]
        · refine ih (r.url :: seen) u ?_
          intro hmem
          rcases List.mem_cons.mp hmem with rfl | hmem
          · exact hru rfl
          · exact hu hmem
        · simp [hru]
        · simp [hru]

/-- The whole merge loop equals `addNew` over the concatenated stream. -/
lemma mergeResults_eq_addNew (rls : List (List SourceB)) :
    mergeResults rls = addNew [] rls.flatten := by
  unfold mergeResults gatherAll
  rw [← List.foldl_flatten gatherStep ([], []) rls]
  rw [foldl_gatherStep_fst]
  simp

/-! ## Claim 6 -/

/-- C6: the merged evidence list holds at most one record per URL, keeps the
first-seen record (title and snippet) for a duplicated URL, preserves
first-seen order across queries (it is a subsequence of the concatenated
per-query results), and is capped at 8 records — in lockstep with the
rendered snippet lines — before prompt embedding. -/
theorem claim6_merge_dedup_cap (rls : List (List SourceB)) :
    ((mergeResults rls).map fun s => s.url).Nodup ∧
    List.Sublist (mergeResults rls) rls.flatten ∧
    (∀ u : String, (mergeResults rls).find? (fun s => s.url == u) =
      rls.flatten.find? fun s => s.url == u) ∧
    (topSources rls).length ≤ 8 ∧
    evidenceLines rls = (topSources rls).map renderLine := by
  refine ⟨?_, ?_, ?_, ?_, ?_⟩
  · rw [mergeResults_eq_addNew]
    exact (addNew_nodup rls.flatten []).1
  · rw [mergeResults_eq_addNew]
    exact addNew_sublist rls.flatten []
  · intro u
    rw [mergeResults_eq_addNew]
    exact addNew_find rls.flatten [] u (List.not_mem_nil u)
  · unfold topSources
    exact List.length_take_le 8 (mergeResults rls)
  · unfold evidenceLines topSources
    have hsnd : (gatherAll rls).2 = (gatherAll rls).1.map renderLine := by
      unfold gatherAll
      rw [← List.foldl_flatten gatherStep ([], []) rls]
      exact foldl_gatherStep_snd rls.flatten ([], []) rfl
    rw [hsnd]
    unfold mergeResults
    exact (List.map_take renderLine (gatherAll rls).1 8).symm

/-! ## performWebSearch (tool-calling pipeline variant) -/

/-- The outcome of an outbound `fetch`: the call threw an exception, the
response was non-OK, or it was OK with parsed data. -/
inductive FetchOut (α : Type) where
  | threw : FetchOut α
  | notOk : FetchOut α
  | ok (data : α) : FetchOut α

/-- A grounding-metadata chunk (after the `chunk.web ?? chunk` coalescing);
each field may be `undefined`. -/
structure ChunkB where
  uri : Option String
  url : Option String
  title : Option String
  snippet : Option String

/-- The parsed gateway response of the fallback search: the message content
and the grounding-metadata chunk list when present. -/
structure GatewayDataB where
  content : Option String
  chunks : Option (List ChunkB)

/-- An element of the JSON array parsed out of the content text; each field
may be absent. -/
structure ItemB where
  title : Option String
  url : Option String
  link : Option String
  snippet : Option String
  description : Option String

/-- Truthiness of an optional string (`undefined` and `""` are falsy). -/
def truthyOpt : Option String → Bool
  | none => false
  | some s => !(s == "")

/-- Outcomes of the external calls of `performWebSearch`: the two
credentials, the SerpAPI fetch, the gateway fetch, and `JSON.parse` applied
to the bracket-matched content substring (`none` covers both a parse
exception and a non-array result, which the source treats alike). -/
structure WorldB where
  serpapiKey : Option String
  lovableKey : Option String
  serp : String → FetchOut (List OrganicResult)
  gateway : String → FetchOut GatewayDataB
  arrayParse : String → Option (List ItemB)

/-- First index of a character in a list. -/
def idxOfChar (c : Char) (l : List Char) : Option Nat :=
  l.findIdx? fun x => x == c

/-- Last index of a character in a list. -/
def lastIdxOfChar (c : Char) (l : List Char) : Option Nat :=
  match idxOfChar c l.reverse with
  | some i => some (l.length - 1 - i)
  | none => none

/-- The greedy match `content.match(/\[[\s\S]*\]/)`: the slice from the
first opening bracket to the last closing bracket, when the latter comes
after the former. -/
def extractBracket (l : List Char) : Option (List Char) :=
  match idxOfChar '[' l, lastIdxOfChar ']' l with
  | some i, some j => if i < j then some ((l.drop i).take (j - i + 1)) else none
  | _, _ => none

/-- The grounding-chunk sources: one record per chunk with a truthy `uri` or
`url` (`title ?? "Source"`, `uri ?? url`, `snippet ?? ""`). -/
def chunkSources (chunks : List ChunkB) : List SourceB :=
  chunks.filterMap fun c =>
    if truthyOpt c.uri || truthyOpt c.url then
      some { title := c.title.getD "Source"
             url := match c.uri with
               | some u => u
               | none => c.url.getD ""
             snippet := c.snippet.getD "" }
    else none

/-- The Gemini fallback block of `performWebSearch`: grounding chunks when
nonempty, else a JSON array parsed from the content; every failure path
(missing key, thrown fetch, non-OK status, unparsable content) returns `[]`
instead of raising. -/
def geminiFallbackB (w : WorldB) (query : String) : List SourceB :=
  match w.lovableKey with
  | none => []
  | some _ =>
    match w.gateway query with
    | .threw => []
    | .notOk => []
    | .ok data =>
      let content := jsOrStr data.content ""
      let fromChunks :=
        match data.chunks with
        | some chunks => chunkSources chunks
        | none => []
      if fromChunks.length > 0 then fromChunks.take 5
      else
        match extractBracket content.data with
        | some sub =>
          match w.arrayParse (String.mk sub) with
          | some items =>
            (items.take 5).map fun r =>
              { title := jsOrStr r.title "Source"
                url := jsOrStr r.url (jsOrStr r.link "")
                snippet := jsOrStr r.snippet (jsOrStr r.description "") }
          | none => []
        | none => []

/-- `performWebSearch(query)`: SerpAPI first when its key is configured and
the fetch returns OK (thrown and non-OK outcomes fall through); otherwise
the Gemini fallback. -/
def performWebSearchB (w : WorldB) (query : String) : List SourceB :=
  match w.serpapiKey, w.serp query with
  | some _, .ok organic =>
    (organic.take 5).map fun r =>
      { title := jsOrStr r.title "Untitled"
        url := jsOrStr r.link ""
        snippet := jsOrStr r.snippet "" }
  | _, _ => geminiFallbackB w query

/-! ## Claim 10 -/

/-- C10: `performWebSearch` is total over every combination of credentials
and upstream outcomes — thrown fetches and non-OK statuses included — and
always returns a list of at most 5 source records; no upstream failure
propagates to the caller (every such branch of the embedding yields a plain
list). -/
theorem claim10_search_total_bounded (w : WorldB) (q : String) :
    (performWebSearchB w q).length ≤ 5 := by
  simp only [performWebSearchB, geminiFallbackB]
  repeat' split
  all_goals simp [List.length_take]
